import Mathlib

/-!
Shallow embedding of the gated graph transformer network core
(src/model.py and src/transformation_modules/aggregate_representation.py)
over the reals, together with theorems settling the specification claims.

Tensors are embedded as functions out of `Fin`; a single batch element is
modelled where the source computation is independent across the batch.
-/

noncomputable section

namespace GGTN

/-- Modelled from the spec: the constant `util.EPSILON` of the repository
(util.py is absent from src); the spec describes it as a small positive
constant preventing log(0). -/
def EPSILON : ℝ := 1 / 10000000

theorem EPSILON_pos : 0 < EPSILON := by norm_num [EPSILON]

theorem EPSILON_lt_one : EPSILON < 1 := by norm_num [EPSILON]

/-! ### Aggregate representation transformation

Embedding of `AggregateRepresentationTransformation.process`
(src/transformation_modules/aggregate_representation.py).
The graph state of a single batch element is given by
`ids : Fin n → Fin nid → ℝ` (node_ids), `sts : Fin n → Fin s → ℝ`
(node_states) and `str : Fin n → ℝ` (node_strengths); the layer
parameters are the weight matrix `W` and bias `b`, producing an
activation vector of width `w + 1` per node.  The epsilon used inside
the log is kept as an explicit parameter `eps`; the source always
instantiates it with `EPSILON`. -/

/-- Concatenation `[node_ids, node_states]` per node (the `flat_obs` of
the source, for one node of one batch element). -/
def flatObs (n nid s : ℕ) (ids : Fin n → Fin nid → ℝ) (sts : Fin n → Fin s → ℝ)
    (i : Fin n) : Fin (nid + s) → ℝ :=
  Fin.append (ids i) (sts i)

/-- The affine layer `do_layer(id, flat_obs, W, b)` reshaped to
(node, representation_width+1): activation component `j` of node `i`. -/
def activations (n nid s w : ℕ) (W : Fin (nid + s) → Fin (w + 1) → ℝ)
    (b : Fin (w + 1) → ℝ) (ids : Fin n → Fin nid → ℝ) (sts : Fin n → Fin s → ℝ)
    (i : Fin n) (j : Fin (w + 1)) : ℝ :=
  (∑ k, flatObs n nid s ids sts i k * W k j) + b j

/-- The attention logit of node `i`: component 0 of its activation vector
(`activation_strengths` in the source). -/
def activationStrength (n nid s w : ℕ) (W : Fin (nid + s) → Fin (w + 1) → ℝ)
    (b : Fin (w + 1) → ℝ) (ids : Fin n → Fin nid → ℝ) (sts : Fin n → Fin s → ℝ)
    (i : Fin n) : ℝ :=
  activations n nid s w W b ids sts i 0

/-- The `existence_penalty` term `log(node_strengths + eps)`. -/
def existencePenalty (n : ℕ) (eps : ℝ) (str : Fin n → ℝ) (i : Fin n) : ℝ :=
  Real.log (str i + eps)

/-- The softmax attention weight of node `i`
(`selector` in the source, one batch element). -/
def selector (n nid s w : ℕ) (eps : ℝ) (W : Fin (nid + s) → Fin (w + 1) → ℝ)
    (b : Fin (w + 1) → ℝ) (ids : Fin n → Fin nid → ℝ) (sts : Fin n → Fin s → ℝ)
    (str : Fin n → ℝ) (i : Fin n) : ℝ :=
  Real.exp (activationStrength n nid s w W b ids sts i + existencePenalty n eps str i) /
    ∑ j, Real.exp (activationStrength n nid s w W b ids sts j + existencePenalty n eps str j)

/-- The raw (pre-tanh) candidate representation of node `i`: the last `w`
components of its activation vector. -/
def rawRepresentation (n nid s w : ℕ) (W : Fin (nid + s) → Fin (w + 1) → ℝ)
    (b : Fin (w + 1) → ℝ) (ids : Fin n → Fin nid → ℝ) (sts : Fin n → Fin s → ℝ)
    (i : Fin n) (r : Fin w) : ℝ :=
  activations n nid s w W b ids sts i r.succ

/-- The per-node candidate representation `tanh(activations[:,:,1:])`. -/
def representation (n nid s w : ℕ) (W : Fin (nid + s) → Fin (w + 1) → ℝ)
    (b : Fin (w + 1) → ℝ) (ids : Fin n → Fin nid → ℝ) (sts : Fin n → Fin s → ℝ)
    (i : Fin n) (r : Fin w) : ℝ :=
  Real.tanh (rawRepresentation n nid s w W b ids sts i r)

/-- `AggregateRepresentationTransformation.process`: the attention-weighted
sum of per-node tanh representations, component `r` of the result vector
for one batch element. -/
def aggregateProcess (n nid s w : ℕ) (eps : ℝ) (W : Fin (nid + s) → Fin (w + 1) → ℝ)
    (b : Fin (w + 1) → ℝ) (ids : Fin n → Fin nid → ℝ) (sts : Fin n → Fin s → ℝ)
    (str : Fin n → ℝ) (r : Fin w) : ℝ :=
  ∑ i, selector n nid s w eps W b ids sts str i *
    representation n nid s w W b ids sts i r

/-! ### New-node matching loss

Embedding of the node-loss computation of `_iter_fn` (src/model.py,
lines 220-243), one batch element.  `itertools.permutations(range(k))`
enumerates exactly the bijections of `Fin k`, embedded as
`Finset.univ : Finset (Equiv.Perm (Fin k))`.  For permutation `σ` and
candidate slot `i`, the permuted ground truth pairs slot `σ i` of the
ground truth with candidate `i` (advanced indexing
`correct_new_strengths[:, perm_idxs]`). -/

/-- Bernoulli strength log-likelihood of one permutation
(`T.sum(strength_ll, axis=2)` of the source, one batch element):
`cStr` is the ground-truth new-node strength vector, `str` the
candidate strengths. -/
def strengthLL (k : ℕ) (eps : ℝ) (cStr str : Fin k → ℝ)
    (σ : Equiv.Perm (Fin k)) : ℝ :=
  ∑ i, (cStr (σ i) * Real.log (str i + eps) +
    (1 - cStr (σ i)) * Real.log (1 - str i + eps))

/-- Categorical identity log-likelihood of one permutation
(`T.sum(ids_ll, axis=[2,3])` of the source, one batch element). -/
def idsLL (k nid : ℕ) (eps : ℝ) (cIds ids : Fin k → Fin nid → ℝ)
    (σ : Equiv.Perm (Fin k)) : ℝ :=
  ∑ i, ∑ d, cIds (σ i) d * Real.log (ids i d + eps)

/-- `reduced_perm_lls`: total log-likelihood of one permutation. -/
def reducedPermLL (k nid : ℕ) (eps : ℝ) (cStr str : Fin k → ℝ)
    (cIds ids : Fin k → Fin nid → ℝ) (σ : Equiv.Perm (Fin k)) : ℝ :=
  strengthLL k eps cStr str σ + idsLL k nid eps cIds ids σ

/-- Node loss in `best_node_match_only` mode:
`-T.max(reduced_perm_lls, 1)`, one batch element. -/
def nodeLossBest (k nid : ℕ) (eps : ℝ) (cStr str : Fin k → ℝ)
    (cIds ids : Fin k → Fin nid → ℝ) : ℝ :=
  -(Finset.univ.sup' Finset.univ_nonempty (reducedPermLL k nid eps cStr str cIds ids))

/-- Modelled from the spec: `util.reduce_log_sum` (util.py is absent from
src) is the log-sum-exp over the reduced axis, here the permutation axis. -/
def reduceLogSum (k : ℕ) (f : Equiv.Perm (Fin k) → ℝ) : ℝ :=
  Real.log (∑ σ, Real.exp (f σ))

/-- Node loss in the non-best-match mode, one batch element:
`full_ll` minus the log repetition factor
`gammaln(new_nodes_per_iter - correct_num_new_nodes + 1)`, negated.
`cNum` is `correct_num_new_nodes`. -/
def nodeLossFull (k nid : ℕ) (eps : ℝ) (cNum : ℕ) (cStr str : Fin k → ℝ)
    (cIds ids : Fin k → Fin nid → ℝ) : ℝ :=
  -(reduceLogSum k (reducedPermLL k nid eps cStr str cIds ids) -
    Real.log (Real.Gamma ((k : ℝ) - (cNum : ℝ) + 1)))

/-! ### Edge loss

Embedding of the edge-loss computation of `_iter_fn` (src/model.py,
lines 266-274), one batch element: `cE` are the cropped correct edges,
`pE` the predicted edge strengths (`gstate.edge_strengths`), `str` the
node strengths after the new nodes were substituted in. -/

/-- Bernoulli log-likelihood of one edge slot (`edge_lls`). -/
def edgeLL (n ne : ℕ) (eps : ℝ) (cE pE : Fin n → Fin n → Fin ne → ℝ)
    (a d : Fin n) (e : Fin ne) : ℝ :=
  cE a d e * Real.log (pE a d e + eps) +
    (1 - cE a d e) * Real.log (1 - pE a d e + eps)

/-- `edge_loss = -T.sum(edge_lls * mask_src * mask_dest, axis=[1,2,3])`,
one batch element. -/
def edgeLoss (n ne : ℕ) (eps : ℝ) (str : Fin n → ℝ)
    (cE pE : Fin n → Fin n → Fin ne → ℝ) : ℝ :=
  -(∑ a, ∑ d, ∑ e, edgeLL n ne eps cE pE a d e * str a * str d)

/-- The standard binary cross-entropy with the epsilon stabiliser of the
source, between a ground-truth value `c` and a prediction `p`; this is the
quantity the spec calls per-edge binary cross-entropy. -/
def binaryCrossEntropy (eps : ℝ) (c p : ℝ) : ℝ :=
  -(c * Real.log (p + eps) + (1 - c) * Real.log (1 - p + eps))

/-- `reduced_edge_loss = T.sum(edge_loss) / n_batch` (src/model.py line 370):
the per-step per-element edge losses summed over the scan axis (`T` steps)
and the batch axis (`B` elements), divided by the batch size. -/
def reducedEdgeLoss (B T n ne : ℕ) (eps : ℝ)
    (str : Fin B → Fin T → Fin n → ℝ)
    (cE pE : Fin B → Fin T → Fin n → Fin n → Fin ne → ℝ) : ℝ :=
  (∑ bi, ∑ t, edgeLoss n ne eps (str bi t) (cE bi t) (pE bi t)) / (B : ℝ)

/-- The per-element edge accuracy (src/model.py lines 275-279):
`T.all(T.or_(close_edges, ok_mask))` where `close_edges` compares the
ground truth with the snapped edges through a closeness relation
(`T.isclose`) and `ok_mask` marks pairs whose strength product casts to
boolean false, i.e. equals zero. -/
def edgeAccuracy (n ne : ℕ) (close : ℝ → ℝ → Prop) (str : Fin n → ℝ)
    (cE snapE : Fin n → Fin n → Fin ne → ℝ) : Prop :=
  ∀ a d e, close (cE a d e) (snapE a d e) ∨ str a * str d = 0

/-! ### Loss reduction and total loss composition

Embedding of the reductions of `_build` (src/model.py, lines 366-379 and
450-454).  The scan produces per-step per-element node and edge losses;
`reduced_node_loss` and `reduced_edge_loss` sum them and divide by the
batch size, `avg_graph_loss` divides their sum by the sentence count, and
`full_loss` adds the graph term when the graph supervision is enabled and
the query term when the query supervision is enabled. -/

/-- `T.sum(loss) / n_batch` for a (step, batch) table of per-element
losses. -/
def reducedLoss (B T : ℕ) (loss : Fin T → Fin B → ℝ) : ℝ :=
  (∑ t, ∑ bi, loss t bi) / (B : ℝ)

/-- `avg_graph_loss` in the `dynamic_nodes` branch (src/model.py line 371). -/
def avgGraphLoss (B T : ℕ) (nodeLoss edgeLoss : Fin T → Fin B → ℝ) : ℝ :=
  (reducedLoss B T nodeLoss + reducedLoss B T edgeLoss) / (T : ℝ)

/-- `full_loss` (src/model.py lines 450-454): starts at zero, adds the
graph-construction term when built with the correct graph, adds the query
term when training with the query. -/
def fullLoss (withCorrectGraph trainWithQuery : Bool) (graphLoss queryLoss : ℝ) : ℝ :=
  (if withCorrectGraph then graphLoss else 0) +
    (if trainWithQuery then queryLoss else 0)

/-- The training loss of `_build(self.train_with_graph, ...)` assembled
from the per-step per-element node and edge losses and the query loss. -/
def trainLoss (trainWithGraph trainWithQuery : Bool) (B T : ℕ)
    (nodeLoss edgeLoss : Fin T → Fin B → ℝ) (queryLoss : ℝ) : ℝ :=
  fullLoss trainWithGraph trainWithQuery (avgGraphLoss B T nodeLoss edgeLoss) queryLoss

/-! ### Padding of the loop-carried graph state -/

/-- `pad_graph_size` (src/model.py lines 335-339): the fixed size the
graph state is flattened to before entering the scan. -/
def padGraphSize (dynamicNodes : Bool) (nSentences newNodesPerIter numNodeIds : ℕ) : ℕ :=
  if dynamicNodes then nSentences * newNodesPerIter + 1 else numNodeIds

/-- Modelled from the spec: `GraphState.flatten_to_const_size` pads the
node-strength vector with zeros beyond the true node count (graph_state.py
is absent from src; the spec requires padding slots to carry zero
strength). -/
def paddedStrengths (n P : ℕ) (str : Fin n → ℝ) (i : Fin P) : ℝ :=
  if h : (i : ℕ) < n then str ⟨i, h⟩ else 0

/-! ### Constructor configuration check

Embedding of the `output_format` validation of `Model.__init__`
(src/model.py lines 114 and 132): the assertion
`assert output_format in ModelOutputFormat` sits inside the
`if self.train_with_query:` block. -/

/-- The members of the `ModelOutputFormat` enumeration. -/
inductive ModelOutputFormat where
  | category : ModelOutputFormat
  | subset : ModelOutputFormat
  | sequence : ModelOutputFormat
deriving DecidableEq

/-- A value passed as `output_format`: either a member of
`ModelOutputFormat` or any other Python value, tagged by a code. -/
inductive OutputFormatArg where
  | valid : ModelOutputFormat → OutputFormatArg
  | invalid : ℕ → OutputFormatArg
deriving DecidableEq

/-- The construction-time configuration check of `Model.__init__`: with
the query head enabled the assertion rejects a non-member
`output_format`; without it the assertion is never reached and
construction succeeds. -/
def modelInitCheck (trainWithQuery : Bool) (fmt : OutputFormatArg) :
    Except String Unit :=
  if trainWithQuery then
    match fmt with
    | OutputFormatArg.valid _ => Except.ok ()
    | OutputFormatArg.invalid _ => Except.error "Invalid output format"
  else
    Except.ok ()

/-! ### Dropout masks across the recurrence

Embedding of the scan wiring of `_build` (src/model.py lines 356-358):
the dropout masks are sampled once before the sentence loop (lines
185-199) and then appended to the `sequences` argument of `theano.scan`
(`sequences.extend(iter_dropouts)`).  `theano.scan` iterates every entry
of `sequences` along its first axis and runs for the length of the
shortest sequence, so step `t` of the recurrence receives the `t`-th
first-axis slice of each mask tensor, not the whole mask.  This is
embedded by zipping the per-sentence inputs with the mask viewed as the
list of its first-axis slices (`List.zip` truncates to the shorter
list, matching the scan step count). -/

/-- The sentence scan with the sampled dropout mask passed as a scan
sequence: step `t` receives input `t` together with the `t`-th slice of
the mask. -/
def scanWithMaskSequence {S I M : Type} (step : I → M → S → S)
    (inputs : List I) (maskSeq : List M) (init : S) : S :=
  (inputs.zip maskSeq).foldl (fun sa p => step p.1 p.2 sa) init

/-! ### Influence of the graph ground truth on the training loss

Embedding of the dependence structure of the compiled training function
(src/model.py lines 450-454, 472-493): the four graph ground-truth inputs
enter the computation only through the node and edge losses, which are
computed only when `_build` is called with `with_correct_graph = True`;
`train` uses `_build(self.train_with_graph, ...)`.  `Θ` is the parameter
space, `cand` the candidate node and edge predictions as a function of
the parameters, and the ground truth of each step and batch element is a
strength vector, an identity matrix and an edge tensor. -/

/-- The per-element graph losses computed by the scan from the ground
truth and the parameter-dependent predictions, assembled into the full
training loss as a function of the parameters. -/
def buildTrainLoss {Θ : Type} (trainWithGraph trainWithQuery : Bool)
    (B T k nid n ne : ℕ) (eps : ℝ)
    (candStr : Θ → Fin T → Fin B → Fin k → ℝ)
    (candIds : Θ → Fin T → Fin B → Fin k → Fin nid → ℝ)
    (candEdges : Θ → Fin T → Fin B → Fin n → Fin n → Fin ne → ℝ)
    (nodeStr : Θ → Fin T → Fin B → Fin n → ℝ)
    (gtNum : Fin T → Fin B → ℕ)
    (gtStr : Fin T → Fin B → Fin k → ℝ)
    (gtIds : Fin T → Fin B → Fin k → Fin nid → ℝ)
    (gtEdges : Fin T → Fin B → Fin n → Fin n → Fin ne → ℝ)
    (queryLoss : Θ → ℝ) (θ : Θ) : ℝ :=
  trainLoss trainWithGraph trainWithQuery B T
    (fun t bi => nodeLossFull k nid eps (gtNum t bi) (gtStr t bi)
      (candStr θ t bi) (gtIds t bi) (candIds θ t bi))
    (fun t bi => edgeLoss n ne eps (nodeStr θ t bi) (gtEdges t bi)
      (candEdges θ t bi))
    (queryLoss θ)

/-! ## Theorems settling the claims -/

/-- C6: with both graph and query supervision enabled the total loss is the
graph-construction loss (node loss plus edge loss, each summed and divided
by the batch size, then divided by the sentence count) plus the query loss;
disabling `train_with_graph` removes the graph term and disabling
`train_with_query` removes the query term. -/
theorem total_loss_composition (B T : ℕ) (nl el : Fin T → Fin B → ℝ) (q : ℝ) :
    trainLoss true true B T nl el q =
      ((∑ t, ∑ bi, nl t bi) / (B : ℝ) + (∑ t, ∑ bi, el t bi) / (B : ℝ)) / (T : ℝ) + q ∧
    trainLoss false true B T nl el q = q ∧
    trainLoss true false B T nl el q =
      ((∑ t, ∑ bi, nl t bi) / (B : ℝ) + (∑ t, ∑ bi, el t bi) / (B : ℝ)) / (T : ℝ) := by
  refine ⟨?_, ?_, ?_⟩ <;>
    simp [trainLoss, fullLoss, avgGraphLoss, reducedLoss]

/-- C7 counterexample: with `train_with_query = False` the constructor
accepts a value that is not a member of `ModelOutputFormat`, because the
assertion sits inside the `if self.train_with_query:` block; hence
construction does not fail for every invalid `output_format` regardless of
the other flags. -/
theorem invalid_output_format_accepted_without_query :
    modelInitCheck false (OutputFormatArg.invalid 0) = Except.ok () := rfl

/-- C7 amended: when `train_with_query` is enabled, every non-member
`output_format` makes construction fail at the assertion, before the
computation graph is built, and every member is accepted. -/
theorem invalid_output_format_fails_with_query :
    (∀ d : ℕ, modelInitCheck true (OutputFormatArg.invalid d) =
      Except.error "Invalid output format") ∧
    (∀ f : ModelOutputFormat, modelInitCheck true (OutputFormatArg.valid f) =
      Except.ok ()) :=
  ⟨fun _ => rfl, fun _ => rfl⟩

/-- C8: two ground-truth edge tensors that differ only on node pairs in
which at least one endpoint has strength 0 produce exactly the same edge
loss, because each edge likelihood is multiplied by the product of the two
endpoint strengths. -/
theorem edge_loss_masking_noninterference (n ne : ℕ) (eps : ℝ)
    (str : Fin n → ℝ) (cE cE' pE : Fin n → Fin n → Fin ne → ℝ)
    (h : ∀ a d e, cE a d e ≠ cE' a d e → str a = 0 ∨ str d = 0) :
    edgeLoss n ne eps str cE pE = edgeLoss n ne eps str cE' pE := by
  unfold edgeLoss
  congr 1
  refine Finset.sum_congr rfl fun a _ => ?_
  refine Finset.sum_congr rfl fun d _ => ?_
  refine Finset.sum_congr rfl fun e _ => ?_
  by_cases hc : cE a d e = cE' a d e
  · simp [edgeLL, hc]
  · rcases h a d e hc with h0 | h0 <;> simp [h0]

/-- C8 witness: a two-node instance whose ground truths differ only on the
pair (0,1), where node 1 has strength 0. -/
theorem edge_loss_masking_noninterference_witness :
    edgeLoss 2 1 EPSILON ![1, 0]
      (fun a d _ => if a = 0 ∧ d = 1 then 1 else 0) (fun _ _ _ => 1 / 2) =
    edgeLoss 2 1 EPSILON ![1, 0]
      (fun _ _ _ => 0) (fun _ _ _ => 1 / 2) := by
  apply edge_loss_masking_noninterference
  intro a d e hne
  fin_cases a <;> fin_cases d <;> simp_all

/-- C10: with `train_with_graph = False` the built training loss, as a
function of the parameters, does not depend on the four graph ground-truth
inputs, and therefore any parameter-update rule computed from that loss
function (Adam) produces identical updates. -/
theorem graph_inputs_noninterference {Θ Υ : Type} (trainWithQuery : Bool)
    (B T k nid n ne : ℕ) (eps : ℝ)
    (candStr : Θ → Fin T → Fin B → Fin k → ℝ)
    (candIds : Θ → Fin T → Fin B → Fin k → Fin nid → ℝ)
    (candEdges : Θ → Fin T → Fin B → Fin n → Fin n → Fin ne → ℝ)
    (nodeStr : Θ → Fin T → Fin B → Fin n → ℝ)
    (gtNum gtNum' : Fin T → Fin B → ℕ)
    (gtStr gtStr' : Fin T → Fin B → Fin k → ℝ)
    (gtIds gtIds' : Fin T → Fin B → Fin k → Fin nid → ℝ)
    (gtEdges gtEdges' : Fin T → Fin B → Fin n → Fin n → Fin ne → ℝ)
    (queryLoss : Θ → ℝ) (adam : (Θ → ℝ) → Υ) :
    buildTrainLoss false trainWithQuery B T k nid n ne eps
        candStr candIds candEdges nodeStr gtNum gtStr gtIds gtEdges queryLoss =
      buildTrainLoss false trainWithQuery B T k nid n ne eps
        candStr candIds candEdges nodeStr gtNum' gtStr' gtIds' gtEdges' queryLoss ∧
    adam (buildTrainLoss false trainWithQuery B T k nid n ne eps
        candStr candIds candEdges nodeStr gtNum gtStr gtIds gtEdges queryLoss) =
      adam (buildTrainLoss false trainWithQuery B T k nid n ne eps
        candStr candIds candEdges nodeStr gtNum' gtStr' gtIds' gtEdges' queryLoss) := by
  have hf : buildTrainLoss false trainWithQuery B T k nid n ne eps
      candStr candIds candEdges nodeStr gtNum gtStr gtIds gtEdges queryLoss =
      buildTrainLoss false trainWithQuery B T k nid n ne eps
      candStr candIds candEdges nodeStr gtNum' gtStr' gtIds' gtEdges' queryLoss := by
    funext θ
    simp [buildTrainLoss, trainLoss, fullLoss]
  exact ⟨hf, congrArg adam hf⟩

/-- C5: evaluation of the scan wiring at a failing input.  With two
sentence steps and a sampled mask whose first-axis slices are the
distinct values 0 and 1, a step function that records the mask value it
receives sees 0 at step 0 and 1 at step 1 (recorded list `[0, 1]` with
`0 ≠ 1`), so the mask values applied at the two recurrence steps are not
identical; and with three sentence steps but a mask of first-axis length
2, a step counter reaches only 2 of the 3 steps, because `theano.scan`
runs for the shortest sequence.  Both contradict the claim that the
identical once-sampled mask values are applied at every recurrence step. -/
theorem dropout_mask_sliced_per_step :
    scanWithMaskSequence (fun (_ : Unit) (m : ℕ) (sa : List ℕ) => sa ++ [m])
        [(), ()] [0, 1] [] = [0, 1] ∧
    (0 : ℕ) ≠ 1 ∧
    scanWithMaskSequence (fun (_ : Unit) (_ : ℕ) (sa : ℕ) => sa + 1)
        [(), (), ()] [0, 1] 0 = 2 :=
  ⟨rfl, by decide, rfl⟩

/-- C3: in `best_node_match_only` mode the negation of the node loss is the
greatest value, over all permutations of the ground-truth slots, of the
permutation log-likelihood given by the sum of the Bernoulli strength terms
and the categorical identity terms. -/
theorem best_match_loss_is_neg_max (k nid : ℕ) (eps : ℝ) (cStr str : Fin k → ℝ)
    (cIds ids : Fin k → Fin nid → ℝ) :
    IsGreatest
      (Set.range fun σ : Equiv.Perm (Fin k) =>
        strengthLL k eps cStr str σ + idsLL k nid eps cIds ids σ)
      (-nodeLossBest k nid eps cStr str cIds ids) := by
  constructor
  · obtain ⟨σ, _, hσ⟩ := Finset.exists_mem_eq_sup'
      (Finset.univ_nonempty (α := Equiv.Perm (Fin k)))
      (reducedPermLL k nid eps cStr str cIds ids)
    refine ⟨σ, ?_⟩
    simp only [nodeLossBest, neg_neg]
    exact hσ.symm
  · rintro x ⟨σ, rfl⟩
    simp only [nodeLossBest, neg_neg]
    exact Finset.le_sup' (reducedPermLL k nid eps cStr str cIds ids)
      (Finset.mem_univ σ)

/-- Helper: with slot-constant ground truth every permutation has the same
log-likelihood. -/
theorem reducedPermLL_const (k nid : ℕ) (eps : ℝ) (cStr str : Fin k → ℝ)
    (cIds ids : Fin k → Fin nid → ℝ)
    (hS : ∀ i j, cStr i = cStr j) (hI : ∀ i j, cIds i = cIds j)
    (σ : Equiv.Perm (Fin k)) :
    reducedPermLL k nid eps cStr str cIds ids σ =
      reducedPermLL k nid eps cStr str cIds ids 1 := by
  unfold reducedPermLL strengthLL idsLL
  simp only [Equiv.Perm.one_apply]
  congr 1
  · exact Finset.sum_congr rfl fun i _ => by rw [hS (σ i) i]
  · exact Finset.sum_congr rfl fun i _ =>
      Finset.sum_congr rfl fun d _ => by rw [hI (σ i) i]

/-- C2: in the non-best-match mode the node loss of one batch element is
the negation of the log-sum-exp over all permutations of the permutation
log-likelihood, minus `log((k - c)!)` where `c` is the true new-node
count; and when `c = 0`, so that all ground-truth slots are the identical
"no node" slot, all `k!` permutation terms coincide and the loss reduces
to the negative single-permutation log-likelihood. -/
theorem node_loss_full_perm (k nid : ℕ) (eps : ℝ) (cNum : ℕ)
    (cStr str : Fin k → ℝ) (cIds ids : Fin k → Fin nid → ℝ)
    (hc : cNum ≤ k) :
    nodeLossFull k nid eps cNum cStr str cIds ids =
      -(Real.log (∑ σ : Equiv.Perm (Fin k),
          Real.exp (strengthLL k eps cStr str σ + idsLL k nid eps cIds ids σ)) -
        Real.log (Nat.factorial (k - cNum) : ℝ)) ∧
    (cNum = 0 → (∀ i j, cStr i = cStr j) → (∀ i j, cIds i = cIds j) →
      nodeLossFull k nid eps cNum cStr str cIds ids =
        -reducedPermLL k nid eps cStr str cIds ids 1) := by
  have hgamma : Real.Gamma ((k : ℝ) - (cNum : ℝ) + 1) = (Nat.factorial (k - cNum) : ℝ) := by
    have hcast : (k : ℝ) - (cNum : ℝ) = ((k - cNum : ℕ) : ℝ) := by
      rw [Nat.cast_sub hc]
    rw [hcast, Real.Gamma_nat_eq_factorial]
  constructor
  · unfold nodeLossFull reduceLogSum
    rw [hgamma]
    rfl
  · intro h0 hS hI
    unfold nodeLossFull reduceLogSum
    rw [hgamma]
    have hsum : (∑ σ : Equiv.Perm (Fin k),
        Real.exp (reducedPermLL k nid eps cStr str cIds ids σ)) =
        (Nat.factorial k : ℝ) * Real.exp (reducedPermLL k nid eps cStr str cIds ids 1) := by
      rw [Finset.sum_congr rfl fun σ _ => by
        rw [reducedPermLL_const k nid eps cStr str cIds ids hS hI σ]]
      rw [Finset.sum_const, Finset.card_univ, Fintype.card_perm, Fintype.card_fin,
        nsmul_eq_mul]
    rw [hsum, Real.log_mul (by positivity) (Real.exp_ne_zero _), Real.log_exp, h0,
      Nat.sub_zero]
    ring

/-- C2 witness: two slots, no true new nodes, constant ground truth. -/
theorem node_loss_full_perm_witness :
    (nodeLossFull 2 1 EPSILON 0 (fun _ => 0) (fun _ => 1 / 2)
        (fun _ _ => 0) (fun _ _ => 1 / 2) =
      -(Real.log (∑ σ : Equiv.Perm (Fin 2),
          Real.exp (strengthLL 2 EPSILON (fun _ => 0) (fun _ => 1 / 2) σ +
            idsLL 2 1 EPSILON (fun _ _ => 0) (fun _ _ => 1 / 2) σ)) -
        Real.log (Nat.factorial (2 - 0) : ℝ))) ∧
    (0 = 0 → (∀ i j : Fin 2, (fun _ : Fin 2 => (0 : ℝ)) i = (fun _ : Fin 2 => (0 : ℝ)) j) →
      (∀ i j : Fin 2, (fun _ : Fin 2 => fun _ : Fin 1 => (0 : ℝ)) i =
        (fun _ : Fin 2 => fun _ : Fin 1 => (0 : ℝ)) j) →
      nodeLossFull 2 1 EPSILON 0 (fun _ => 0) (fun _ => 1 / 2)
          (fun _ _ => 0) (fun _ _ => 1 / 2) =
        -reducedPermLL 2 1 EPSILON (fun _ => 0) (fun _ => 1 / 2)
          (fun _ _ => 0) (fun _ _ => 1 / 2) 1) :=
  node_loss_full_perm 2 1 EPSILON 0 (fun _ => 0) (fun _ => 1 / 2)
    (fun _ _ => 0) (fun _ _ => 1 / 2) (by norm_num)

/-- C4 counterexample: a one-node, one-edge-type instance with node
strength 1, ground-truth edge 1 and predicted edge 0.  The edge loss of
the code is the positive sum of masked binary cross-entropies, not its
negation: here the loss is `-log(EPSILON) > 0` while the claimed value is
`log(EPSILON) < 0`. -/
theorem edge_loss_sign_counterexample :
    edgeLoss 1 1 EPSILON (fun _ => 1) (fun _ _ _ => 1) (fun _ _ _ => 0) ≠
      -(∑ a : Fin 1, ∑ d : Fin 1, ∑ e : Fin 1,
        binaryCrossEntropy EPSILON ((fun _ _ _ => (1 : ℝ)) a d e)
            ((fun _ _ _ => (0 : ℝ)) a d e) *
          (fun _ : Fin 1 => (1 : ℝ)) a * (fun _ : Fin 1 => (1 : ℝ)) d) := by
  have hlog : Real.log EPSILON < 0 := Real.log_neg EPSILON_pos EPSILON_lt_one
  simp only [edgeLoss, edgeLL, binaryCrossEntropy, Fin.sum_univ_one]
  intro heq
  rw [zero_add] at heq
  ring_nf at heq
  nlinarith [heq, hlog]

/-- C4 amended: the per-element edge loss equals the (positive) sum over
all node pairs and edge types of the epsilon-stabilised binary
cross-entropy between predicted and ground-truth edge strengths multiplied
by the product of the source and destination node strengths (equivalently,
the negative sum of the masked Bernoulli log-likelihoods), and the reported
edge loss is this quantity summed over the batch and the sentence steps and
divided by the batch size. -/
theorem edge_loss_is_masked_bce (B T n ne : ℕ) (eps : ℝ) (str : Fin n → ℝ)
    (cE pE : Fin n → Fin n → Fin ne → ℝ)
    (strB : Fin B → Fin T → Fin n → ℝ)
    (cEB pEB : Fin B → Fin T → Fin n → Fin n → Fin ne → ℝ) :
    edgeLoss n ne eps str cE pE =
      ∑ a, ∑ d, ∑ e,
        binaryCrossEntropy eps (cE a d e) (pE a d e) * str a * str d ∧
    reducedEdgeLoss B T n ne eps strB cEB pEB =
      (∑ bi, ∑ t, ∑ a, ∑ d, ∑ e,
        binaryCrossEntropy eps (cEB bi t a d e) (pEB bi t a d e) *
          strB bi t a * strB bi t d) / (B : ℝ) := by
  have hsingle : ∀ (str : Fin n → ℝ) (cE pE : Fin n → Fin n → Fin ne → ℝ),
      edgeLoss n ne eps str cE pE =
        ∑ a, ∑ d, ∑ e,
          binaryCrossEntropy eps (cE a d e) (pE a d e) * str a * str d := by
    intro str cE pE
    unfold edgeLoss edgeLL binaryCrossEntropy
    rw [← Finset.sum_neg_distrib]
    refine Finset.sum_congr rfl fun a _ => ?_
    rw [← Finset.sum_neg_distrib]
    refine Finset.sum_congr rfl fun d _ => ?_
    rw [← Finset.sum_neg_distrib]
    refine Finset.sum_congr rfl fun e _ => ?_
    ring
  refine ⟨hsingle str cE pE, ?_⟩
  unfold reducedEdgeLoss
  rw [Finset.sum_congr rfl fun bi _ =>
    Finset.sum_congr rfl fun t _ => hsingle (strB bi t) (cEB bi t) (pEB bi t)]

/-- Helper: a sum over the padded index range collapses to the sum over
the true range when the summand vanishes on the padding. -/
theorem sum_castLE {P n : ℕ} (h : n ≤ P) (g : Fin P → ℝ)
    (hg : ∀ a : Fin P, n ≤ (a : ℕ) → g a = 0) :
    ∑ a, g a = ∑ a : Fin n, g (Fin.castLE h a) := by
  have hmap : ∑ a : Fin n, g (Fin.castLE h a) =
      ∑ x ∈ Finset.univ.map (Fin.castLEEmb h), g x := by
    rw [Finset.sum_map]
    rfl
  rw [hmap]
  symm
  apply Finset.sum_subset (Finset.subset_univ _)
  intro x _ hx
  apply hg
  by_contra hlt
  push_neg at hlt
  exact hx (Finset.mem_map.mpr ⟨⟨(x : ℕ), hlt⟩, Finset.mem_univ _, Fin.ext rfl⟩)

/-- C9: with dynamic nodes the fixed pad size is
`n_sentences * new_nodes_per_iter + 1`; the padding slots of the flattened
state carry zero strength; and a padded state whose first `n` slots agree
with the unpadded one yields exactly the same edge loss and the same edge
accuracy whatever values sit in the padding region. -/
theorem padding_zero_strength_noninterference (T k nid n P ne : ℕ) (h : n ≤ P)
    (eps : ℝ) (str : Fin n → ℝ) (cE pE : Fin n → Fin n → Fin ne → ℝ)
    (cBig pBig : Fin P → Fin P → Fin ne → ℝ) (close : ℝ → ℝ → Prop)
    (hcB : ∀ a d e, cBig (Fin.castLE h a) (Fin.castLE h d) e = cE a d e)
    (hpB : ∀ a d e, pBig (Fin.castLE h a) (Fin.castLE h d) e = pE a d e) :
    padGraphSize true T k nid = T * k + 1 ∧
    padGraphSize false T k nid = nid ∧
    (∀ i : Fin P, n ≤ (i : ℕ) → paddedStrengths n P str i = 0) ∧
    edgeLoss P ne eps (paddedStrengths n P str) cBig pBig =
      edgeLoss n ne eps str cE pE ∧
    (edgeAccuracy P ne close (paddedStrengths n P str) cBig pBig ↔
      edgeAccuracy n ne close str cE pE) := by
  have hzero : ∀ i : Fin P, n ≤ (i : ℕ) → paddedStrengths n P str i = 0 := by
    intro i hi
    unfold paddedStrengths
    rw [dif_neg (by omega)]
  have hpad : ∀ a : Fin n, paddedStrengths n P str (Fin.castLE h a) = str a := by
    intro a
    unfold paddedStrengths
    rw [dif_pos (show ((Fin.castLE h a : Fin P) : ℕ) < n from a.isLt)]
    exact congrArg str (Fin.ext rfl)
  refine ⟨rfl, rfl, hzero, ?_, ?_⟩
  · unfold edgeLoss
    congr 1
    rw [sum_castLE h _ (fun a ha => by simp [hzero a ha])]
    refine Finset.sum_congr rfl fun a _ => ?_
    rw [sum_castLE h _ (fun d hd => by simp [hzero d hd])]
    refine Finset.sum_congr rfl fun d _ => ?_
    refine Finset.sum_congr rfl fun e _ => ?_
    rw [hpad a, hpad d]
    unfold edgeLL
    rw [hcB, hpB]
  · constructor
    · intro hacc a d e
      rcases hacc (Fin.castLE h a) (Fin.castLE h d) e with hcl | hm
      · left
        rwa [hcB, hpB] at hcl
      · right
        rwa [hpad a, hpad d] at hm
    · intro hacc a d e
      by_cases han : (a : ℕ) < n
      · by_cases hdn : (d : ℕ) < n
        · have hav : Fin.castLE h ⟨(a : ℕ), han⟩ = a := Fin.ext rfl
          have hdv : Fin.castLE h ⟨(d : ℕ), hdn⟩ = d := Fin.ext rfl
          have hc2 := hcB ⟨(a : ℕ), han⟩ ⟨(d : ℕ), hdn⟩ e
          have hp2 := hpB ⟨(a : ℕ), han⟩ ⟨(d : ℕ), hdn⟩ e
          rw [hav, hdv] at hc2 hp2
          rcases hacc ⟨(a : ℕ), han⟩ ⟨(d : ℕ), hdn⟩ e with hcl | hm
          · left
            rw [hc2, hp2]
            exact hcl
          · right
            unfold paddedStrengths
            rw [dif_pos han, dif_pos hdn]
            exact hm
        · right
          rw [hzero d (le_of_not_lt hdn), mul_zero]
      · right
        rw [hzero a (le_of_not_lt han), zero_mul]

/-- C9 witness: one true node padded to two slots, with constant
extensions of the edge tensors. -/
theorem padding_zero_strength_noninterference_witness :
    padGraphSize true 1 1 3 = 1 * 1 + 1 ∧
    padGraphSize false 1 1 3 = 3 ∧
    (∀ i : Fin 2, 1 ≤ (i : ℕ) →
      paddedStrengths 1 2 (fun _ => (1 : ℝ)) i = 0) ∧
    edgeLoss 2 1 EPSILON (paddedStrengths 1 2 (fun _ => (1 : ℝ)))
        (fun _ _ _ => 1) (fun _ _ _ => 1 / 2) =
      edgeLoss 1 1 EPSILON (fun _ => (1 : ℝ)) (fun _ _ _ => 1)
        (fun _ _ _ => 1 / 2) ∧
    (edgeAccuracy 2 1 (fun x y => x = y) (paddedStrengths 1 2 (fun _ => (1 : ℝ)))
        (fun _ _ _ => 1) (fun _ _ _ => 1 / 2) ↔
      edgeAccuracy 1 1 (fun x y => x = y) (fun _ => (1 : ℝ)) (fun _ _ _ => 1)
        (fun _ _ _ => 1 / 2)) :=
  padding_zero_strength_noninterference 1 1 3 1 2 1 (by norm_num) EPSILON
    (fun _ => (1 : ℝ)) (fun _ _ _ => 1) (fun _ _ _ => 1 / 2)
    (fun _ _ _ => 1) (fun _ _ _ => 1 / 2) (fun x y => x = y)
    (fun _ _ _ => rfl) (fun _ _ _ => rfl)

/-- C1 counterexample: a two-node state with strengths (1, 0) in which the
aggregation output differs from tanh of the raw representation of the
strength-1 node, because with the positive epsilon of the code the
zero-strength node keeps a positive softmax weight: the output picks up a
positive multiple of the other node representation. -/
theorem aggregate_epsilon_counterexample :
    aggregateProcess 2 1 1 1 EPSILON
        (fun p q => if p = 1 ∧ q = 1 then 1 else 0) (fun _ => 0)
        (fun _ _ => 0) (fun i _ => if i = 0 then 0 else 1)
        (fun i => if i = 0 then 1 else 0) 0 ≠
      Real.tanh (rawRepresentation 2 1 1 1
        (fun p q => if p = 1 ∧ q = 1 then 1 else 0) (fun _ => 0)
        (fun _ _ => 0) (fun i _ => if i = 0 then 0 else 1) 0 0) := by
  have hraw0 : rawRepresentation 2 1 1 1
      (fun p q => if p = 1 ∧ q = 1 then 1 else 0) (fun _ => 0)
      (fun _ _ => 0) (fun i _ => if i = 0 then 0 else 1) 0 0 = 0 := by
    unfold rawRepresentation activations flatObs
    rw [Fin.sum_univ_two]
    norm_num [Fin.append, Fin.addCases]
  have hraw1 : rawRepresentation 2 1 1 1
      (fun p q => if p = 1 ∧ q = 1 then 1 else 0) (fun _ => 0)
      (fun _ _ => 0) (fun i _ => if i = 0 then 0 else 1) 1 0 = 1 := by
    unfold rawRepresentation activations flatObs
    rw [Fin.sum_univ_two]
    norm_num [Fin.append, Fin.addCases]
  have hrep0 : representation 2 1 1 1
      (fun p q => if p = 1 ∧ q = 1 then 1 else 0) (fun _ => 0)
      (fun _ _ => 0) (fun i _ => if i = 0 then 0 else 1) 0 0 = 0 := by
    unfold representation
    rw [hraw0, Real.tanh_zero]
  have hrep1 : representation 2 1 1 1
      (fun p q => if p = 1 ∧ q = 1 then 1 else 0) (fun _ => 0)
      (fun _ _ => 0) (fun i _ => if i = 0 then 0 else 1) 1 0 = Real.tanh 1 := by
    unfold representation
    rw [hraw1]
  have hsel1 : 0 < selector 2 1 1 1 EPSILON
      (fun p q => if p = 1 ∧ q = 1 then 1 else 0) (fun _ => 0)
      (fun _ _ => 0) (fun i _ => if i = 0 then 0 else 1)
      (fun i => if i = 0 then 1 else 0) 1 := by
    unfold selector
    exact div_pos (Real.exp_pos _)
      (Finset.sum_pos (fun i _ => Real.exp_pos _) ⟨0, Finset.mem_univ 0⟩)
  have hagg : aggregateProcess 2 1 1 1 EPSILON
      (fun p q => if p = 1 ∧ q = 1 then 1 else 0) (fun _ => 0)
      (fun _ _ => 0) (fun i _ => if i = 0 then 0 else 1)
      (fun i => if i = 0 then 1 else 0) 0 =
      selector 2 1 1 1 EPSILON
        (fun p q => if p = 1 ∧ q = 1 then 1 else 0) (fun _ => 0)
        (fun _ _ => 0) (fun i _ => if i = 0 then 0 else 1)
        (fun i => if i = 0 then 1 else 0) 1 * Real.tanh 1 := by
    unfold aggregateProcess
    rw [Fin.sum_univ_two, hrep0, hrep1, mul_zero, zero_add]
  have htanh1 : 0 < Real.tanh 1 := by
    rw [Real.tanh_eq_sinh_div_cosh]
    exact div_pos
      (by rw [← Real.sinh_zero]; exact Real.sinh_lt_sinh.mpr one_pos)
      (Real.cosh_pos 1)
  rw [hagg, hraw0, Real.tanh_zero]
  exact ne_of_gt (mul_pos hsel1 htanh1)

/-- C1 amended: the softmax attention weights always sum to 1 per batch
element; and for a state in which node `j` has strength 1 and every other
node strength 0, the aggregation output converges to tanh of the raw
candidate representation of node `j` as the epsilon inside
`log(node_strength + eps)` tends to 0 from above (with the positive
epsilon of the code the zero-strength nodes retain a weight of order
epsilon, so exact equality and independence of the other nodes need not
hold). -/
theorem aggregate_one_hot_soft_selection (n nid s w : ℕ)
    (W : Fin (nid + s) → Fin (w + 1) → ℝ) (b : Fin (w + 1) → ℝ)
    (ids : Fin n → Fin nid → ℝ) (sts : Fin n → Fin s → ℝ)
    (str : Fin n → ℝ) (j : Fin n) (r : Fin w)
    (hone : str j = 1) (hzero : ∀ i, i ≠ j → str i = 0) :
    (∀ eps : ℝ, ∑ i, selector n nid s w eps W b ids sts str i = 1) ∧
    Filter.Tendsto
      (fun eps => aggregateProcess n nid s w eps W b ids sts str r)
      (nhdsWithin 0 (Set.Ioi 0))
      (nhds (Real.tanh (rawRepresentation n nid s w W b ids sts j r))) := by
  have hNe : (Finset.univ : Finset (Fin n)).Nonempty := ⟨j, Finset.mem_univ j⟩
  have hstr_nonneg : ∀ i, 0 ≤ str i := by
    intro i
    by_cases hij : i = j
    · rw [hij, hone]
      norm_num
    · rw [hzero i hij]
  constructor
  · intro eps
    unfold selector
    rw [← Finset.sum_div]
    exact div_self (ne_of_gt (Finset.sum_pos (fun i _ => Real.exp_pos _) hNe))
  · have hev : ∀ eps ∈ Set.Ioi (0 : ℝ),
        (∑ i, (str i + eps) *
            Real.exp (activationStrength n nid s w W b ids sts i) *
            representation n nid s w W b ids sts i r) /
          (∑ i, (str i + eps) *
            Real.exp (activationStrength n nid s w W b ids sts i)) =
          aggregateProcess n nid s w eps W b ids sts str r := by
      intro eps heps
      have hterm : ∀ i, Real.exp (activationStrength n nid s w W b ids sts i +
          existencePenalty n eps str i) =
          (str i + eps) * Real.exp (activationStrength n nid s w W b ids sts i) := by
        intro i
        rw [Real.exp_add]
        unfold existencePenalty
        rw [Real.exp_log (add_pos_of_nonneg_of_pos (hstr_nonneg i) heps), mul_comm]
      unfold aggregateProcess selector
      simp only [hterm]
      rw [Finset.sum_div]
      exact Finset.sum_congr rfl fun i _ => (div_mul_eq_mul_div _ _ _).symm
    have hD0 : (∑ i, str i *
        Real.exp (activationStrength n nid s w W b ids sts i)) =
        Real.exp (activationStrength n nid s w W b ids sts j) := by
      rw [Finset.sum_eq_single j
        (fun i _ hij => by rw [hzero i hij, zero_mul])
        (fun hj => absurd (Finset.mem_univ j) hj)]
      rw [hone, one_mul]
    have hN0 : (∑ i, str i *
        Real.exp (activationStrength n nid s w W b ids sts i) *
        representation n nid s w W b ids sts i r) =
        Real.exp (activationStrength n nid s w W b ids sts j) *
          representation n nid s w W b ids sts j r := by
      rw [Finset.sum_eq_single j
        (fun i _ hij => by rw [hzero i hij, zero_mul, zero_mul])
        (fun hj => absurd (Finset.mem_univ j) hj)]
      rw [hone, one_mul]
    have hNc : Continuous fun eps : ℝ => ∑ i, (str i + eps) *
        Real.exp (activationStrength n nid s w W b ids sts i) *
        representation n nid s w W b ids sts i r := by
      apply continuous_finset_sum
      intro i _
      exact ((continuous_const.add continuous_id).mul continuous_const).mul
        continuous_const
    have hDc : Continuous fun eps : ℝ => ∑ i, (str i + eps) *
        Real.exp (activationStrength n nid s w W b ids sts i) := by
      apply continuous_finset_sum
      intro i _
      exact (continuous_const.add continuous_id).mul continuous_const
    have hNt : Filter.Tendsto (fun eps : ℝ => ∑ i, (str i + eps) *
        Real.exp (activationStrength n nid s w W b ids sts i) *
        representation n nid s w W b ids sts i r) (nhds 0)
        (nhds (Real.exp (activationStrength n nid s w W b ids sts j) *
          representation n nid s w W b ids sts j r)) := by
      have h := hNc.tendsto 0
      simpa [hN0] using h
    have hDt : Filter.Tendsto (fun eps : ℝ => ∑ i, (str i + eps) *
        Real.exp (activationStrength n nid s w W b ids sts i)) (nhds 0)
        (nhds (Real.exp (activationStrength n nid s w W b ids sts j))) := by
      have h := hDc.tendsto 0
      simpa [hD0] using h
    have hDiv := hNt.div hDt (Real.exp_ne_zero _)
    have hval : Real.exp (activationStrength n nid s w W b ids sts j) *
        representation n nid s w W b ids sts j r /
        Real.exp (activationStrength n nid s w W b ids sts j) =
        representation n nid s w W b ids sts j r := by
      rw [mul_comm, mul_div_assoc, div_self (Real.exp_ne_zero _), mul_one]
    rw [hval] at hDiv
    exact Filter.Tendsto.congr'
      (Filter.eventually_of_mem self_mem_nhdsWithin fun eps heps => hev eps heps)
      (hDiv.mono_left nhdsWithin_le_nhds)

/-- C1 witness: the one-hot softmax and limit statement at a concrete
two-node state with the strength-1 node in slot 0. -/
theorem aggregate_one_hot_soft_selection_witness :
    (∀ eps : ℝ, ∑ i, selector 2 1 1 1 eps
        (fun p q => if p = 1 ∧ q = 1 then 1 else 0) (fun _ => 0)
        (fun _ _ => 0) (fun i _ => if i = 0 then 0 else 1)
        (fun i => if i = 0 then 1 else 0) i = 1) ∧
    Filter.Tendsto
      (fun eps => aggregateProcess 2 1 1 1 eps
        (fun p q => if p = 1 ∧ q = 1 then 1 else 0) (fun _ => 0)
        (fun _ _ => 0) (fun i _ => if i = 0 then 0 else 1)
        (fun i => if i = 0 then 1 else 0) 0)
      (nhdsWithin 0 (Set.Ioi 0))
      (nhds (Real.tanh (rawRepresentation 2 1 1 1
        (fun p q => if p = 1 ∧ q = 1 then 1 else 0) (fun _ => 0)
        (fun _ _ => 0) (fun i _ => if i = 0 then 0 else 1) 0 0))) :=
  aggregate_one_hot_soft_selection 2 1 1 1
    (fun p q => if p = 1 ∧ q = 1 then 1 else 0) (fun _ => 0)
    (fun _ _ => 0) (fun i _ => if i = 0 then 0 else 1)
    (fun i => if i = 0 then 1 else 0) 0 0
    (by norm_num)
    (by
      intro i hi
      fin_cases i
      · exact absurd rfl hi
      · norm_num)

end GGTN
